import Mathlib

/-!
Verification of the SherlockOS HunyuanWorld-Mirror reconstruction service
(`modal/sherlock_mirror.py`): a shallow embedding of its PLY Gaussian-splat
encoder, SH-to-RGB colour derivation, video frame sampler, prediction-field
alias resolver, default-filling Gaussian extraction, and response point-cloud
downsampling, together with theorems about them.

Python/numpy floating-point values are modelled as rationals.  A 32-bit float
field written by `struct.pack("<f", ...)` is modelled as one list element:
every field occupies exactly 4 bytes in the binary body, so byte offsets are
4 times field offsets and the record structure (counts, ordering, absence of
padding and delimiters) is captured exactly.
-/

namespace SherlockMirror

/-- `SH_C0 = 0.28209479177387814`, the zeroth spherical-harmonic constant
from `sh_dc_to_rgb`. -/
def SH_C0 : ℚ := 0.28209479177387814

/-- `MAX_POINTS_IN_RESPONSE = 50_000`: cap on the point-cloud size included
in the JSON response. -/
def MAX_POINTS_IN_RESPONSE : ℕ := 50000

/-!
## PLY Gaussian-splat encoder (`write_gaussian_ply`)

The encoder receives per-point arrays (`means`, `opacities`, `scales`,
`quats`, `sh`); `w` is the per-point SH width `sh.shape[1]`.
-/

/-- SH preprocessing of `write_gaussian_ply`: when the per-point width `w` is
divisible by 3 the per-channel group length is `w / 3`; otherwise the row is
replicated three times (`np.tile(sh.reshape(n, -1), (1, 3))`) and the group
length becomes the original width (`(3 * w) / 3 = w`).  Returns the prepared
rows together with `n_sh_per_channel`. -/
def prepSh (sh : List (List ℚ)) (w : ℕ) : List (List ℚ) × ℕ :=
  if w % 3 = 0 then (sh, w / 3)
  else (sh.map (fun r => r ++ r ++ r), w)

/-- `f_dc` of one prepared SH row: after `sh.reshape(n, 3, K)` (channel-major
groups of length `K`), `sh_flat[:, :, 0]` is the first element of each of the
three groups. -/
def fdcRow (K : ℕ) (r : List ℚ) : List ℚ :=
  [r.getD 0 0, r.getD K 0, r.getD (2 * K) 0]

/-- `f_rest` of one prepared SH row: `sh_flat[:, :, 1:].reshape(n, -1)`, the
elements `1 .. K-1` of each channel-major group, channel by channel. -/
def frestRow (K : ℕ) (r : List ℚ) : List ℚ :=
  ((r.drop 1).take (K - 1)) ++ ((r.drop (K + 1)).take (K - 1))
    ++ ((r.drop (2 * K + 1)).take (K - 1))

/-- The ordered property list declared in the PLY header: `x y z`,
`nx ny nz`, `f_dc_0..2`, `f_rest_0..(3*(K-1)-1)`, `opacity`, `scale_0..2`,
`rot_0..3`. -/
def propNames (K : ℕ) : List String :=
  ["x", "y", "z", "nx", "ny", "nz"]
    ++ (List.range 3).map (fun i => s!"f_dc_{i}")
    ++ (List.range ((K - 1) * 3)).map (fun i => s!"f_rest_{i}")
    ++ ["opacity"]
    ++ (List.range 3).map (fun i => s!"scale_{i}")
    ++ (List.range 4).map (fun i => s!"rot_{i}")

/-- The ASCII header lines of the generated PLY file. -/
def headerLines (n K : ℕ) : List String :=
  ["ply", "format binary_little_endian 1.0", s!"element vertex {n}"]
    ++ (propNames K).map (fun p => s!"property float {p}")
    ++ ["end_header"]

/-- One binary record of `write_gaussian_ply`, fields in write order:
`xyz`, zero normals, `f_dc`, `f_rest`, `opacity`, `scale`, `rot`. -/
def plyRecord (K : ℕ) (mean shRow : List ℚ) (opac : ℚ)
    (scale quat : List ℚ) : List ℚ :=
  mean ++ [0, 0, 0] ++ fdcRow K shRow ++ frestRow K shRow
    ++ [opac] ++ scale ++ quat

/-- A written PLY file: the ASCII header lines followed by the binary body,
the body modelled as the flat sequence of 32-bit float fields in write
order. -/
structure PlyFile where
  header : List String
  body : List ℚ

/-- `write_gaussian_ply`: builds the header and writes the body as one record
per point `i in range(n)`, each record's fields contiguous, records
back-to-back. -/
def write_gaussian_ply (means : List (List ℚ)) (opacities : List ℚ)
    (scales quats sh : List (List ℚ)) (w : ℕ) : PlyFile :=
  let n := means.length
  let pK := prepSh sh w
  { header := headerLines n pK.2
    body := ((List.range n).map (fun i =>
      plyRecord pK.2 (means.getD i []) (pK.1.getD i []) (opacities.getD i 0)
        (scales.getD i []) (quats.getD i []))).flatten }

/-- A reader of the binary body: take the vertex count `n` and the field
count `F` from the header and read `n` consecutive records of `F` fields
each, requiring the body to be fully consumed. -/
def parseBody : ℕ → ℕ → List ℚ → Option (List (List ℚ))
  | 0, _, l => if l.isEmpty then some [] else none
  | n + 1, F, l =>
    if F ≤ l.length then
      (parseBody n F (l.drop F)).map (fun rs => l.take F :: rs)
    else none

theorem parseBody_flatten {F : ℕ} :
    ∀ rs : List (List ℚ), (∀ r ∈ rs, r.length = F) →
      parseBody rs.length F rs.flatten = some rs := by
  intro rs
  induction rs with
  | nil => intro _; simp [parseBody]
  | cons r rs ih =>
    intro h
    have hr : r.length = F := h r (by simp)
    have hrest : ∀ x ∈ rs, x.length = F := fun x hx => h x (by simp [hx])
    simp only [List.length_cons, List.flatten_cons, parseBody]
    rw [if_pos (by simp [← hr]), List.take_left' hr, List.drop_left' hr,
      ih hrest]
    rfl

theorem propNames_length (K : ℕ) :
    (propNames K).length = 17 + 3 * (K - 1) := by
  simp [propNames]
  omega

theorem frestRow_length {K : ℕ} (hK : 0 < K) {r : List ℚ}
    (hr : r.length = 3 * K) : (frestRow K r).length = 3 * (K - 1) := by
  simp [frestRow, hr]
  omega

theorem plyRecord_length {K : ℕ} (hK : 0 < K) {mean shRow scale quat : List ℚ}
    {opac : ℚ} (hm : mean.length = 3) (hs : shRow.length = 3 * K)
    (hsc : scale.length = 3) (hq : quat.length = 4) :
    (plyRecord K mean shRow opac scale quat).length = 17 + 3 * (K - 1) := by
  simp [plyRecord, fdcRow, hm, hsc, hq, frestRow_length hK hs]
  omega

theorem getD_mem_of_lt {α : Type} {l : List α} {i : ℕ} (d : α)
    (h : i < l.length) : l.getD i d ∈ l := by
  rw [List.getD_eq_getElem?_getD, List.getElem?_eq_getElem h]
  exact List.getElem_mem h

/-- **C1**: for a canonical Gaussian set of `N` points with per-channel SH
group length `K` (width `3 * K`), the written file is the declared header
followed by exactly `N` fixed-size records; parsing the body with the
header's vertex count and property count recovers exactly the `N` records,
each with `17 + 3 * (K - 1)` fields, matching the declared property list,
the body being precisely their concatenation (no padding, no delimiter). -/
theorem ply_roundtrip_record_structure
    (means : List (List ℚ)) (opacities : List ℚ)
    (scales quats sh : List (List ℚ)) (K : ℕ) (hK : 0 < K)
    (hm3 : ∀ r ∈ means, r.length = 3) (hsc3 : ∀ r ∈ scales, r.length = 3)
    (hq4 : ∀ r ∈ quats, r.length = 4) (hshw : ∀ r ∈ sh, r.length = 3 * K)
    (ho : opacities.length = means.length)
    (hsc : scales.length = means.length) (hq : quats.length = means.length)
    (hsh : sh.length = means.length) :
    (write_gaussian_ply means opacities scales quats sh (3 * K)).header
        = headerLines means.length K ∧
    (propNames K).length = 17 + 3 * (K - 1) ∧
    ∃ records : List (List ℚ),
      parseBody means.length (propNames K).length
          (write_gaussian_ply means opacities scales quats sh (3 * K)).body
        = some records ∧
      records.length = means.length ∧
      (∀ r ∈ records, r.length = 17 + 3 * (K - 1)) ∧
      (write_gaussian_ply means opacities scales quats sh (3 * K)).body
        = records.flatten := by
  have hprep : prepSh sh (3 * K) = (sh, K) := by
    simp [prepSh, Nat.mul_mod_right, Nat.mul_div_cancel_left _ (by norm_num : (0:ℕ) < 3)]
  set n := means.length with hn
  set records := (List.range n).map (fun i =>
    plyRecord K (means.getD i []) (sh.getD i []) (opacities.getD i 0)
      (scales.getD i []) (quats.getD i [])) with hrecords
  have hreclen : ∀ r ∈ records, r.length = 17 + 3 * (K - 1) := by
    intro r hr
    rw [hrecords] at hr
    obtain ⟨i, hi, rfl⟩ := List.mem_map.1 hr
    have hilt : i < n := List.mem_range.1 hi
    exact plyRecord_length hK
      (hm3 _ (getD_mem_of_lt _ hilt))
      (hshw _ (getD_mem_of_lt _ (by omega : i < sh.length)))
      (hsc3 _ (getD_mem_of_lt _ (by omega : i < scales.length)))
      (hq4 _ (getD_mem_of_lt _ (by omega : i < quats.length)))
  have hbody : (write_gaussian_ply means opacities scales quats sh (3 * K)).body
      = records.flatten := by
    simp only [write_gaussian_ply, hprep, hrecords]
  have hrlen : records.length = n := by simp [hrecords]
  refine ⟨by simp only [write_gaussian_ply, hprep], propNames_length K,
    records, ?_, hrlen, hreclen, hbody⟩
  rw [hbody, propNames_length K, ← hrlen]
  exact parseBody_flatten records (by intro r hr; exact hreclen r hr)

/-- Witness for C1 at `N = 2`, `K = 2`. -/
theorem ply_roundtrip_record_structure_witness :
    (write_gaussian_ply [[1,2,3],[4,5,6]] [1/2, 1/4]
        [[0,0,0],[0,0,0]] [[1,0,0,0],[1,0,0,0]]
        [[1,2,3,4,5,6],[0,0,0,0,0,0]] (3 * 2)).header
      = headerLines 2 2 ∧
    (propNames 2).length = 17 + 3 * (2 - 1) ∧
    ∃ records : List (List ℚ),
      parseBody 2 (propNames 2).length
          (write_gaussian_ply [[1,2,3],[4,5,6]] [1/2, 1/4]
            [[0,0,0],[0,0,0]] [[1,0,0,0],[1,0,0,0]]
            [[1,2,3,4,5,6],[0,0,0,0,0,0]] (3 * 2)).body
        = some records ∧
      records.length = 2 ∧
      (∀ r ∈ records, r.length = 17 + 3 * (2 - 1)) ∧
      (write_gaussian_ply [[1,2,3],[4,5,6]] [1/2, 1/4]
        [[0,0,0],[0,0,0]] [[1,0,0,0],[1,0,0,0]]
        [[1,2,3,4,5,6],[0,0,0,0,0,0]] (3 * 2)).body = records.flatten := by
  have h := ply_roundtrip_record_structure
    [[1,2,3],[4,5,6]] [1/2, 1/4] [[0,0,0],[0,0,0]]
    [[1,0,0,0],[1,0,0,0]] [[1,2,3,4,5,6],[0,0,0,0,0,0]] 2
    (by decide) (by decide) (by decide) (by decide) (by decide)
    (by decide) (by decide) (by decide) (by decide)
  simpa using h

/-!
## SH DC term to RGB (`sh_dc_to_rgb` and the colour derivation in
`reconstruct` step 4)
-/

/-- `sh_dc_to_rgb` applied to one per-point DC vector:
`np.clip(sh_dc * SH_C0 + 0.5, 0.0, 1.0)` elementwise. -/
def sh_dc_to_rgb (dc : List ℚ) : List ℚ :=
  dc.map (fun v => max 0 (min 1 (v * SH_C0 + 1/2)))

/-- The DC extraction of `reconstruct` step 4: `sh_np[:, :3]` when the SH
width is at least 3, else `np.tile(sh_np[:, :1], (1, 3))`. -/
def reconShDc (sh : List (List ℚ)) (w : ℕ) : List (List ℚ) :=
  if 3 ≤ w then sh.map (fun r => r.take 3)
  else sh.map (fun r => List.replicate 3 (r.getD 0 0))

/-- The RGB colours `reconstruct` places in the response's `point_cloud`:
`sh_dc_to_rgb` of the extracted DC block. -/
def reconColors (sh : List (List ℚ)) (w : ℕ) : List (List ℚ) :=
  (reconShDc sh w).map sh_dc_to_rgb

/-- The spec's formula for the point-cloud RGB, stated in its own words:
per-point DC terms at columns `{0, K, 2K}` (the split the PLY encoder uses
for `f_dc`), then `clamp(coeff * SH_C0 + 0.5, 0, 1)` per channel. -/
def specDcColors (sh : List (List ℚ)) (K : ℕ) : List (List ℚ) :=
  sh.map (fun r => sh_dc_to_rgb [r.getD 0 0, r.getD K 0, r.getD (2 * K) 0])

/-- **C2 counterexample**: for width 6 (`K = 2`) the code takes the first
three flattened coefficients (columns 0, 1, 2), not the per-channel DC terms
at columns `{0, K, 2K}`: on `[0, 1, 0, 0, 0, 0]` the code's green channel is
`SH_C0 + 1/2` while the claimed formula yields `1/2`. -/
theorem recon_colors_ne_dc_split :
    reconColors [[0, 1, 0, 0, 0, 0]] 6 ≠ specDcColors [[0, 1, 0, 0, 0, 0]] 2 := by
  simp [reconColors, reconShDc, sh_dc_to_rgb, specDcColors, SH_C0,
    min_def, max_def]
  norm_num

/-- **C2 amended**: the RGB colours equal
`clamp(coeff[:, {0, 1, 2}] * SH_C0 + 0.5, 0, 1)` — the first three flattened
coefficients per point — whenever the width is at least 3; this coincides
with the claimed per-channel DC split `{0, K, 2K}` exactly when `K = 1`
(width 3). -/
theorem recon_colors_first_three (sh : List (List ℚ)) (w : ℕ) (hw : 3 ≤ w) :
    reconColors sh w
        = sh.map (fun r =>
            (r.take 3).map (fun v => max 0 (min 1 (v * SH_C0 + 1/2)))) ∧
    ((∀ r ∈ sh, r.length = 3) → reconColors sh 3 = specDcColors sh 1) := by
  constructor
  · simp [reconColors, reconShDc, if_pos hw, sh_dc_to_rgb]
  · intro h3
    simp only [reconColors, reconShDc, if_pos (le_refl 3), specDcColors,
      List.map_map]
    apply List.map_congr_left
    intro r hr
    have hlen : r.length = 3 := h3 r hr
    match r, hlen with
    | [a, b, c], _ => simp [sh_dc_to_rgb]

/-- Witness for C2 (amended) at a concrete width-6 array. -/
theorem recon_colors_first_three_witness :
    reconColors [[0, 1, 0, 0, 0, 0]] 6
        = [[0, 1, 0, 0, 0, 0]].map (fun r =>
            (r.take 3).map (fun v => max 0 (min 1 (v * SH_C0 + 1/2)))) ∧
    ((∀ r ∈ [[(0:ℚ), 1, 0, 0, 0, 0]], r.length = 3) →
      reconColors [[0, 1, 0, 0, 0, 0]] 3 = specDcColors [[0, 1, 0, 0, 0, 0]] 1) :=
  recon_colors_first_three [[0, 1, 0, 0, 0, 0]] 6 (by decide)

/-!
## Non-multiple-of-3 SH widths in the encoder (claim C3)
-/

/-- **C3 counterexample**: for the width-2 row `[5, 7]` the encoder does not
collapse the vector to a single shared scalar: it replicates the whole
two-element vector across the channels (`n_sh_per_channel` stays 2, so the
header even declares `f_rest` properties), and no scalar `s` makes the
prepared row `[s, s, s]`. -/
theorem prepSh_not_scalar :
    (prepSh [[5, 7]] 2).2 = 2 ∧
    (prepSh [[5, 7]] 2).1 = [[5, 7, 5, 7, 5, 7]] ∧
    (¬ ∃ s : ℚ, (prepSh [[5, 7]] 2).1 = [[s, s, s]]) ∧
    (write_gaussian_ply [[0, 0, 0]] [0] [[0, 0, 0]] [[1, 0, 0, 0]]
        [[5, 7]] 2).header ≠ headerLines 1 1 := by
  refine ⟨by decide, by decide, ?_, by decide⟩
  rintro ⟨s, hs⟩
  simp [prepSh] at hs

/-- **C3 amended**: when the per-point SH width `w` is not divisible by 3,
the encoder treats the vector as a single shared per-point *channel* and
replicates the whole vector across all 3 channels before the split
(`n_sh_per_channel = w`), so each of the three `f_dc` values of a point
equals the vector's *first* element — which is the shared scalar exactly
when `w = 1`. -/
theorem prepSh_replicates_channel (sh : List (List ℚ)) (w : ℕ)
    (hw : w % 3 ≠ 0) (hlen : ∀ r ∈ sh, r.length = w) :
    (prepSh sh w).2 = w ∧
    (prepSh sh w).1 = sh.map (fun r => r ++ r ++ r) ∧
    ∀ r ∈ sh, fdcRow w (r ++ r ++ r) = [r.getD 0 0, r.getD 0 0, r.getD 0 0] := by
  refine ⟨by simp [prepSh, hw], by simp [prepSh, hw], ?_⟩
  intro r hr
  have hrlen : r.length = w := hlen r hr
  have hw0 : w ≠ 0 := fun h => hw (by simp [h])
  obtain ⟨a, t, rfl⟩ : ∃ a t, r = a :: t := by
    cases r with
    | nil => exact absurd hrlen.symm (by simpa using hw0)
    | cons a t => exact ⟨a, t, rfl⟩
  have h0 : ((a :: t) ++ (a :: t) ++ (a :: t)).getD 0 0 = a := rfl
  have hW : ((a :: t) ++ (a :: t) ++ (a :: t)).getD w 0 = a := by
    rw [List.getD_eq_getElem?_getD, List.append_assoc,
      List.getElem?_append_right (le_of_eq hrlen), hrlen, Nat.sub_self]
    simp
  have h2 : ((a :: t) ++ (a :: t) ++ (a :: t)).getD (2 * w) 0 = a := by
    have hl2 : ((a :: t) ++ (a :: t)).length = 2 * w := by
      rw [List.length_append, hrlen]; omega
    rw [List.getD_eq_getElem?_getD,
      List.getElem?_append_right (le_of_eq hl2), hl2, Nat.sub_self]
    simp
  simp only [fdcRow]
  rw [h0, hW, h2]
  rfl

/-- Witness for C3 (amended) at the width-2 input `[[5, 7]]`. -/
theorem prepSh_replicates_channel_witness :
    (prepSh [[5, 7]] 2).2 = 2 ∧
    (prepSh [[5, 7]] 2).1 = [[(5:ℚ), 7]].map (fun r => r ++ r ++ r) ∧
    ∀ r ∈ [[(5:ℚ), 7]], fdcRow 2 (r ++ r ++ r)
        = [r.getD 0 0, r.getD 0 0, r.getD 0 0] :=
  prepSh_replicates_channel [[5, 7]] 2 (by decide) (by decide)

/-!
## Video frame sampler (`reconstruct`, video path)

Frame pixel data is irrelevant to the sampling claims, so frames are drawn
from an arbitrary type.  OpenCV's reported frame rate is modelled as a
rational; `cap.get(cv2.CAP_PROP_FPS) or 30.0` yields 30 when the reported
rate is the falsy `0.0`.
-/

/-- `src_fps = cap.get(cv2.CAP_PROP_FPS) or 30.0`: the effective source
frame rate, defaulting to 30 when unavailable (reported as `0.0`). -/
def effFps (fps : ℚ) : ℚ :=
  if fps = 0 then 30 else fps

/-- `frame_interval = max(1, int(src_fps / 1))`: Python's `int()` truncates;
for the non-negative rates OpenCV reports this is the floor. -/
def frame_interval (fps : ℚ) : ℕ :=
  max 1 (Int.toNat ⌊fps / 1⌋)

/-- The stride the claim states: `max(1, round(source_fps / target_fps))`
with `target_fps = 1`, stated in the spec's own words. -/
def specStride (fps : ℚ) : ℕ :=
  max 1 (Int.toNat (round (fps / 1)))

/-- The frame-walking loop of the video path: read frames sequentially,
keeping frame `frame_idx` when `frame_idx % frame_interval == 0` and fewer
than `max_frames = 100` frames have been extracted; the walk itself continues
until the source is exhausted. -/
def extractLoop {F : Type} (stride : ℕ) :
    List F → ℕ → ℕ → List F
  | [], _, _ => []
  | f :: rest, idx, extracted =>
    if idx % stride = 0 ∧ extracted < 100 then
      f :: extractLoop stride rest (idx + 1) (extracted + 1)
    else
      extractLoop stride rest (idx + 1) extracted

/-- The video path's frame sampling: walk all decoded frames from index 0
with the computed stride. -/
def sampleFrames {F : Type} (fps : ℚ) (frames : List F) : List F :=
  extractLoop (frame_interval (effFps fps)) frames 0 0

/-- **C4 counterexample**: at a source rate of 29.97 fps the code's stride is
`int(29.97) = 29`, not `round(29.97) = 30` as the claim states. -/
theorem frame_interval_ne_round :
    frame_interval (effFps (2997 / 100)) = 29 ∧
    specStride (2997 / 100) = 30 ∧
    frame_interval (effFps (2997 / 100)) ≠ specStride (2997 / 100) := by
  refine ⟨?_, ?_, ?_⟩ <;>
    · norm_num [frame_interval, specStride, effFps, round_eq]
      decide

theorem extractLoop_eq_filter_take {F : Type} (stride : ℕ) :
    ∀ (frames : List F) (idx extracted : ℕ),
      extractLoop stride frames idx extracted
        = (((List.enumFrom idx frames).filter
              (fun p => p.1 % stride = 0)).map Prod.snd).take (100 - extracted) := by
  intro frames
  induction frames with
  | nil => intro idx extracted; simp [extractLoop]
  | cons f rest ih =>
    intro idx extracted
    by_cases hm : idx % stride = 0
    · by_cases he : extracted < 100
      · rw [show extractLoop stride (f :: rest) idx extracted
            = f :: extractLoop stride rest (idx + 1) (extracted + 1) from
            by simp [extractLoop, hm, he]]
        rw [ih (idx + 1) (extracted + 1)]
        have h100 : 100 - extracted = (100 - (extracted + 1)) + 1 := by omega
        simp [List.filter_cons, hm, h100]
      · rw [show extractLoop stride (f :: rest) idx extracted
            = extractLoop stride rest (idx + 1) extracted from
            by simp [extractLoop, hm, he]]
        rw [ih (idx + 1) extracted]
        have h100 : 100 - extracted = 0 := by omega
        simp [h100]
    · rw [show extractLoop stride (f :: rest) idx extracted
          = extractLoop stride rest (idx + 1) extracted from
          by simp [extractLoop, hm]]
      rw [ih (idx + 1) extracted]
      simp [List.filter_cons, hm]

/-- **C4 amended**: the sampler's stride is `max(1, trunc(source_fps))` —
truncation, not rounding — with 30 fps assumed when the reported rate is
unavailable; it walks frames sequentially in decode order and emits exactly
the frames whose index is a multiple of the stride, in original temporal
order, capped at the first 100 such frames. -/
theorem sampleFrames_spec {F : Type} (fps : ℚ) (frames : List F)
    (hfps : 0 ≤ fps) :
    frame_interval (effFps fps)
        = max 1 (Int.toNat ⌊effFps fps⌋) ∧
    frame_interval (effFps 0) = 30 ∧
    sampleFrames fps frames
        = (((List.enumFrom 0 frames).filter
              (fun p => p.1 % frame_interval (effFps fps) = 0)).map
            Prod.snd).take 100 := by
  refine ⟨by simp [frame_interval], ?_, ?_⟩
  · norm_num [frame_interval, effFps]
    rfl
  · rw [sampleFrames, extractLoop_eq_filter_take]

/-- Witness for C4 (amended): 29.97 fps source, five frames, stride 29. -/
theorem sampleFrames_spec_witness :
    frame_interval (effFps (2997 / 100))
        = max 1 (Int.toNat ⌊effFps ((2997 : ℚ) / 100)⌋) ∧
    frame_interval (effFps 0) = 30 ∧
    sampleFrames ((2997 : ℚ) / 100) [10, 20, 30, 40, 50]
        = (((List.enumFrom 0 [10, 20, 30, 40, 50]).filter
              (fun p => p.1 % frame_interval (effFps ((2997 : ℚ) / 100)) = 0)).map
            Prod.snd).take 100 :=
  sampleFrames_spec ((2997 : ℚ) / 100) [10, 20, 30, 40, 50] (by norm_num)

/-!
## Temporary video file lifecycle (`reconstruct`, video path)

The video path writes the decoded bytes to `/tmp/{case_id}_input.mp4`, then:
raises if OpenCV cannot open the video, raises if zero frames were
extracted, and calls `os.remove` only after both checks succeed; the
surrounding `try/except` returns an error response without any cleanup.
The state machine below records whether the temporary file was removed by
the end of the request.
-/

/-- A video source as the decode library presents it: whether it opens, its
reported frame rate, and its decoded frames. -/
structure VideoSrc (F : Type) where
  opens : Bool
  fps : ℚ
  frames : List F

/-- Outcome of the video path: success flag, extracted frames, and whether
the temporary file backing the decode was removed. -/
structure VideoOutcome (F : Type) where
  ok : Bool
  extracted : List F
  tempFileRemoved : Bool

/-- The video path of `reconstruct`: the temporary file is written first;
failure to open or zero extracted frames raises into the `except` handler,
which returns an error response without removing the file; only the success
path reaches the `os.remove` call. -/
def processVideo {F : Type} (v : VideoSrc F) : VideoOutcome F :=
  if ¬ v.opens then
    { ok := false, extracted := [], tempFileRemoved := false }
  else
    let fs := sampleFrames v.fps v.frames
    if fs.length = 0 then
      { ok := false, extracted := [], tempFileRemoved := false }
    else
      { ok := true, extracted := fs, tempFileRemoved := true }

/-- **C5**: the claim that the temporary file is removed on every path fails:
on a video OpenCV cannot open, and on a video that opens but yields zero
frames, the request fails and the temporary file is left in place; only the
success path removes it. -/
theorem processVideo_leaks_temp_on_failure :
    (processVideo (VideoSrc.mk false 30 ([] : List ℕ))).ok = false ∧
    (processVideo (VideoSrc.mk false 30 ([] : List ℕ))).tempFileRemoved = false ∧
    (processVideo (VideoSrc.mk true 30 ([] : List ℕ))).ok = false ∧
    (processVideo (VideoSrc.mk true 30 ([] : List ℕ))).tempFileRemoved = false ∧
    (processVideo (VideoSrc.mk true 30 [0])).tempFileRemoved = true := by
  refine ⟨rfl, rfl, ?_, ?_, ?_⟩ <;>
    norm_num [processVideo, sampleFrames, extractLoop, frame_interval, effFps]

/-!
## Prediction-field alias resolution (`_extract_tensor`)

A prediction result is either mapping-like (a dict, probed with `k in
predictions` then indexed) or attribute-like (probed with `hasattr` then
read with `getattr`).  Both are association lists from names to values;
Python's `dict` lookup and `getattr` both resolve to the stored value, which
`List.lookup` models (keys of a Python dict are unique, so first-match
lookup coincides with dict lookup).
-/

/-- An opaque prediction result: mapping-like or attribute-like. -/
inductive Pred (V : Type) where
  | dict (entries : List (String × V))
  | obj (attrs : List (String × V))

/-- Membership/attribute probe and value access, uniform over the two
shapes (`k in predictions` / `predictions[k]`, `hasattr` / `getattr`). -/
def predGet {V : Type} (p : Pred V) (k : String) : Option V :=
  match p with
  | Pred.dict es => es.lookup k
  | Pred.obj as => as.lookup k

/-- `_extract_tensor(predictions, candidate_keys)`: walk the candidate keys
in order and return the value of the first key present; `None` when no key
resolves. -/
def extract_tensor {V : Type} (p : Pred V) : List String → Option V
  | [] => none
  | k :: ks =>
    match predGet p k with
    | some v => some v
    | none => extract_tensor p ks

/-- The position aliases used by `reconstruct`. -/
def posAliases : List String := ["pts3d", "means3D", "means", "xyz"]

/-- **C6**: the adapter returns the value of the first alias present,
independent of any later alias also being present: if every key before `k`
in the candidate list is absent and `k` is present, the result is exactly
`k`'s value, whatever the keys after `k` resolve to. -/
theorem extract_tensor_first_alias {V : Type} (p : Pred V)
    (ks₁ ks₂ : List String) (k : String)
    (habsent : ∀ k' ∈ ks₁, predGet p k' = none)
    (hpresent : (predGet p k).isSome) :
    extract_tensor p (ks₁ ++ k :: ks₂) = predGet p k := by
  induction ks₁ with
  | nil =>
    obtain ⟨v, hv⟩ := Option.isSome_iff_exists.1 hpresent
    simp [extract_tensor, hv]
  | cons k' ks₁ ih =>
    have h' : predGet p k' = none := habsent k' (by simp)
    simp only [List.cons_append, extract_tensor, h']
    exact ih (fun x hx => habsent x (by simp [hx]))

/-- Witness for C6: a result exposing both `pts3d` and `means3D`; the
adapter selects `pts3d`. -/
theorem extract_tensor_first_alias_witness :
    extract_tensor (Pred.dict [("means3D", 1), ("pts3d", 2)]) posAliases
      = predGet (Pred.dict [("means3D", 1), ("pts3d", 2)]) "pts3d" ∧
    extract_tensor (Pred.dict [("means3D", 1), ("pts3d", 2)]) posAliases
      = some 2 := by
  constructor
  · exact extract_tensor_first_alias (Pred.dict [("means3D", 1), ("pts3d", 2)])
      [] ["means3D", "means", "xyz"] "pts3d" (by simp) (by decide)
  · decide

/-!
## Canonical Gaussian extraction with defaults (`reconstruct`, step 4)

The extraction receives the resolved optional tensors and materializes the
canonical per-point arrays, substituting the documented defaults for absent
fields.  A present `conf` is modelled as the per-point first column the code
keeps (`reshape(n_points, -1)[:, :1]`).
-/

/-- The canonical Gaussian arrays `reconstruct` builds before encoding. -/
structure Extracted where
  pts3d : List (List ℚ)
  opacity : List ℚ
  scales : List (List ℚ)
  quats : List (List ℚ)
  sh : List (List ℚ)

/-- Step 4 of `reconstruct`: positions are mandatory (absent positions fail
the request with a 500); each optional field, when absent, is filled with its
default for every point: opacity `0.8`, scale `-5.0` per axis, rotation the
identity quaternion `(1, 0, 0, 0)`, SH a zero vector of length 3. -/
def extractGaussians (pts3d : Option (List (List ℚ)))
    (conf : Option (List ℚ)) (scales quats sh : Option (List (List ℚ))) :
    Option Extracted :=
  match pts3d with
  | none => none
  | some pts =>
    let n := pts.length
    some
      { pts3d := pts
        opacity := conf.getD (List.replicate n (8/10))
        scales := scales.getD (List.replicate n [-5, -5, -5])
        quats := quats.getD (List.replicate n [1, 0, 0, 0])
        sh := sh.getD (List.replicate n [0, 0, 0]) }

/-- **C7**: with positions present for `N` points, the request succeeds
whatever optional fields are missing; every missing field is filled with its
documented default for every point, and all per-point arrays share
length `N`. -/
theorem extractGaussians_defaults (pts : List (List ℚ))
    (conf : Option (List ℚ)) (scales quats sh : Option (List (List ℚ)))
    (hc : ∀ c ∈ conf, c.length = pts.length)
    (hs : ∀ s ∈ scales, s.length = pts.length)
    (hq : ∀ q ∈ quats, q.length = pts.length)
    (hsh : ∀ s ∈ sh, s.length = pts.length) :
    ∃ E : Extracted,
      extractGaussians (some pts) conf scales quats sh = some E ∧
      E.pts3d = pts ∧
      E.opacity.length = pts.length ∧ E.scales.length = pts.length ∧
      E.quats.length = pts.length ∧ E.sh.length = pts.length ∧
      (conf = none → E.opacity = List.replicate pts.length (8/10)) ∧
      (scales = none → E.scales = List.replicate pts.length [-5, -5, -5]) ∧
      (quats = none → E.quats = List.replicate pts.length [1, 0, 0, 0]) ∧
      (sh = none → E.sh = List.replicate pts.length [0, 0, 0]) := by
  refine ⟨_, rfl, rfl, ?_, ?_, ?_, ?_, ?_, ?_, ?_, ?_⟩
  · cases conf with
    | none => simp
    | some c => simpa using hc c (by simp)
  · cases scales with
    | none => simp
    | some s => simpa using hs s (by simp)
  · cases quats with
    | none => simp
    | some q => simpa using hq q (by simp)
  · cases sh with
    | none => simp
    | some s => simpa using hsh s (by simp)
  · rintro rfl; rfl
  · rintro rfl; rfl
  · rintro rfl; rfl
  · rintro rfl; rfl

/-- Witness for C7: `N = 10` points, every optional field missing; opacity
is `0.8` for every point and all arrays have length 10. -/
theorem extractGaussians_defaults_witness :
    ∃ E : Extracted,
      extractGaussians (some (List.replicate 10 [0, 0, 0])) none none none none
          = some E ∧
      E.pts3d = List.replicate 10 [0, 0, 0] ∧
      E.opacity.length = (List.replicate 10 [(0:ℚ), 0, 0]).length ∧
      E.scales.length = (List.replicate 10 [(0:ℚ), 0, 0]).length ∧
      E.quats.length = (List.replicate 10 [(0:ℚ), 0, 0]).length ∧
      E.sh.length = (List.replicate 10 [(0:ℚ), 0, 0]).length ∧
      (none = (none : Option (List ℚ)) →
        E.opacity = List.replicate (List.replicate 10 [(0:ℚ), 0, 0]).length (8/10)) ∧
      ((none : Option (List (List ℚ))) = none →
        E.scales = List.replicate (List.replicate 10 [(0:ℚ), 0, 0]).length [-5, -5, -5]) ∧
      ((none : Option (List (List ℚ))) = none →
        E.quats = List.replicate (List.replicate 10 [(0:ℚ), 0, 0]).length [1, 0, 0, 0]) ∧
      ((none : Option (List (List ℚ))) = none →
        E.sh = List.replicate (List.replicate 10 [(0:ℚ), 0, 0]).length [0, 0, 0]) :=
  extractGaussians_defaults (List.replicate 10 [0, 0, 0]) none none none none
    (by simp) (by simp) (by simp) (by simp)

/-!
## Fixed-seed downsampling and response assembly (`reconstruct`, step 8)

`np.random.default_rng(42).choice(n_points, MAX_POINTS_IN_RESPONSE,
replace=False)` constructs a fresh generator from the literal seed 42 on
every invocation and draws a sample without replacement.
-/

/-- Modelled from the spec: the pseudo-random stream behind
`numpy.random.default_rng(seed)` (the generator implementation is not part
of this repository's sources); a deterministic next-state function standing
in for the seeded stream. -/
def rngNext (s : ℕ) : ℕ :=
  (s * 1103515245 + 12345) % 2 ^ 31

/-- Modelled from the spec: `Generator.choice(n, k, replace=False)` as a
seeded selection without replacement — each draw removes the chosen element
from the remaining pool, so no index repeats. -/
def pickIndices : ℕ → ℕ → List ℕ → List ℕ
  | 0, _, _ => []
  | k + 1, seed, avail =>
    if avail.length = 0 then []
    else
      avail.getD (seed % avail.length) 0
        :: pickIndices k (rngNext seed) (avail.eraseIdx (seed % avail.length))

/-- Modelled from the spec: `default_rng(seed).choice(n, k, replace=False)`
over the index pool `range n`. -/
def rngChoice (seed n k : ℕ) : List ℕ :=
  pickIndices k seed (List.range n)

theorem getD_not_mem_eraseIdx {l : List ℕ} (hn : l.Nodup) {j : ℕ}
    (hj : j < l.length) : l.getD j 0 ∉ l.eraseIdx j := by
  have hsplit : l = l.take j ++ l[j] :: l.drop (j + 1) := by
    conv_lhs => rw [← List.take_append_drop j l]
    rw [List.drop_eq_getElem_cons hj]
  have hd : l.getD j 0 = l[j] := by
    rw [List.getD_eq_getElem?_getD, List.getElem?_eq_getElem hj]; rfl
  have hn' : (l.take j ++ l[j] :: l.drop (j + 1)).Nodup := hsplit ▸ hn
  obtain ⟨h1, h2, hdisj⟩ := List.nodup_append.1 hn'
  rw [hd, List.eraseIdx_eq_take_drop_succ]
  intro hmem
  rcases List.mem_append.1 hmem with hmem | hmem
  · exact hdisj hmem (List.mem_cons_self _ _)
  · exact (List.nodup_cons.1 h2).1 hmem

theorem pickIndices_length :
    ∀ (k seed : ℕ) (avail : List ℕ), k ≤ avail.length →
      (pickIndices k seed avail).length = k := by
  intro k
  induction k with
  | zero => intro seed avail _; rfl
  | succ k ih =>
    intro seed avail hk
    have h0 : ¬ avail.length = 0 := by omega
    have hj : seed % avail.length < avail.length := Nat.mod_lt _ (by omega)
    simp only [pickIndices, if_neg h0, List.length_cons]
    rw [ih _ _ (by rw [List.length_eraseIdx_of_lt hj]; omega)]

theorem pickIndices_subset :
    ∀ (k seed : ℕ) (avail : List ℕ) (x : ℕ),
      x ∈ pickIndices k seed avail → x ∈ avail := by
  intro k
  induction k with
  | zero => intro seed avail x hx; simp [pickIndices] at hx
  | succ k ih =>
    intro seed avail x hx
    by_cases h0 : avail.length = 0
    · obtain rfl := List.length_eq_zero.1 h0
      simp [pickIndices] at hx
    · have hj : seed % avail.length < avail.length := Nat.mod_lt _ (by omega)
      simp only [pickIndices, if_neg h0, List.mem_cons] at hx
      rcases hx with rfl | hx
      · exact getD_mem_of_lt 0 hj
      · exact List.eraseIdx_subset _ _ (ih _ _ _ hx)

theorem pickIndices_nodup :
    ∀ (k seed : ℕ) (avail : List ℕ), avail.Nodup →
      (pickIndices k seed avail).Nodup := by
  intro k
  induction k with
  | zero => intro seed avail _; simp [pickIndices]
  | succ k ih =>
    intro seed avail hn
    by_cases h0 : avail.length = 0
    · obtain rfl := List.length_eq_zero.1 h0
      simp [pickIndices]
    · have hj : seed % avail.length < avail.length := Nat.mod_lt _ (by omega)
      simp only [pickIndices, if_neg h0]
      refine List.nodup_cons.2 ⟨?_, ih _ _ (hn.eraseIdx _)⟩
      intro hmem
      exact getD_not_mem_eraseIdx hn hj (pickIndices_subset _ _ _ _ hmem)

theorem rngChoice_spec (seed n k : ℕ) (hk : k ≤ n) :
    (rngChoice seed n k).length = k ∧ (rngChoice seed n k).Nodup ∧
      ∀ i ∈ rngChoice seed n k, i < n := by
  refine ⟨?_, pickIndices_nodup _ _ _ (List.nodup_range n), ?_⟩
  · exact pickIndices_length _ _ _ (by simpa using hk)
  · intro i hi
    exact List.mem_range.1 (pickIndices_subset _ _ _ _ hi)

/-- The `point_cloud` block and the `point_count` statistic of the
response. -/
structure PCResponse where
  positions : List (List ℚ)
  colors : List (List ℚ)
  count : ℕ
  point_count : ℕ

/-- The downsampling step of `reconstruct`'s response assembly.  The
`entropy` argument models the ambient random state a *seedless* generator
would consume; the code constructs `default_rng(42)` from the literal seed
on every invocation, so the outcome never depends on it. -/
def assemblePointCloud (entropy : ℕ) (pts cols : List (List ℚ)) :
    PCResponse :=
  if MAX_POINTS_IN_RESPONSE < pts.length then
    { positions := (rngChoice 42 pts.length MAX_POINTS_IN_RESPONSE).map
        (fun i => pts.getD i [])
      colors := (rngChoice 42 pts.length MAX_POINTS_IN_RESPONSE).map
        (fun i => cols.getD i [])
      count := MAX_POINTS_IN_RESPONSE
      point_count := pts.length }
  else
    { positions := pts, colors := cols, count := pts.length,
      point_count := pts.length }

theorem assemblePointCloud_pos {entropy : ℕ} {pts cols : List (List ℚ)}
    (h : MAX_POINTS_IN_RESPONSE < pts.length) :
    assemblePointCloud entropy pts cols =
      { positions := (rngChoice 42 pts.length MAX_POINTS_IN_RESPONSE).map
          (fun i => pts.getD i [])
        colors := (rngChoice 42 pts.length MAX_POINTS_IN_RESPONSE).map
          (fun i => cols.getD i [])
        count := MAX_POINTS_IN_RESPONSE
        point_count := pts.length } := by
  simp only [assemblePointCloud]
  rw [if_pos h]

theorem assemblePointCloud_neg {entropy : ℕ} {pts cols : List (List ℚ)}
    (h : ¬ MAX_POINTS_IN_RESPONSE < pts.length) :
    assemblePointCloud entropy pts cols =
      { positions := pts, colors := cols, count := pts.length,
        point_count := pts.length } := by
  simp only [assemblePointCloud]
  rw [if_neg h]

/-- The index subset the downsampling step selects
(`default_rng(42).choice(n_points, MAX_POINTS_IN_RESPONSE,
replace=False)`). -/
def downsampleIndices (entropy n : ℕ) : List ℕ :=
  rngChoice 42 n MAX_POINTS_IN_RESPONSE

/-- **C8**: when `N > 50000` the response carries exactly 50000 positions
and colors, drawn without replacement (distinct in-range indices), with
`count = 50000` while `point_count` reports the true `N`; when
`N ≤ 50000` the full cloud is returned with `count = N`. -/
theorem downsample_cap (entropy : ℕ) (pts cols : List (List ℚ)) :
    (MAX_POINTS_IN_RESPONSE < pts.length →
      (assemblePointCloud entropy pts cols).positions.length = 50000 ∧
      (assemblePointCloud entropy pts cols).colors.length = 50000 ∧
      (assemblePointCloud entropy pts cols).count = 50000 ∧
      (assemblePointCloud entropy pts cols).point_count = pts.length ∧
      ∃ idx : List ℕ, idx.Nodup ∧ idx.length = 50000 ∧
        (∀ i ∈ idx, i < pts.length) ∧
        (assemblePointCloud entropy pts cols).positions
            = idx.map (fun i => pts.getD i []) ∧
        (assemblePointCloud entropy pts cols).colors
            = idx.map (fun i => cols.getD i [])) ∧
    (pts.length ≤ MAX_POINTS_IN_RESPONSE →
      (assemblePointCloud entropy pts cols).positions = pts ∧
      (assemblePointCloud entropy pts cols).colors = cols ∧
      (assemblePointCloud entropy pts cols).count = pts.length ∧
      (assemblePointCloud entropy pts cols).point_count = pts.length) := by
  constructor
  · intro hlt
    obtain ⟨hlen, hnd, hmem⟩ :=
      rngChoice_spec 42 pts.length MAX_POINTS_IN_RESPONSE (le_of_lt hlt)
    rw [assemblePointCloud_pos hlt]
    refine ⟨by rw [List.length_map, hlen]; rfl,
      by rw [List.length_map, hlen]; rfl,
      rfl, rfl, rngChoice 42 pts.length MAX_POINTS_IN_RESPONSE,
      hnd, by rw [hlen]; rfl, hmem, rfl, rfl⟩
  · intro hle
    rw [assemblePointCloud_neg (not_lt.2 hle)]
    exact ⟨rfl, rfl, rfl, rfl⟩

/-- Witness for C8 at `N = 60000`: `count = 50000`,
`point_count = 60000`. -/
theorem downsample_cap_witness :
    (assemblePointCloud 0 (List.replicate 60000 [0])
        (List.replicate 60000 [0])).count = 50000 ∧
    (assemblePointCloud 0 (List.replicate 60000 [0])
        (List.replicate 60000 [0])).point_count = 60000 ∧
    (assemblePointCloud 0 (List.replicate 60000 [0])
        (List.replicate 60000 [0])).positions.length = 50000 := by
  have hlen : (List.replicate 60000 ([0] : List ℚ)).length = 60000 :=
    List.length_replicate 60000 [0]
  have h := (downsample_cap 0 (List.replicate 60000 [0])
      (List.replicate 60000 [0])).1 (by rw [hlen]; norm_num [MAX_POINTS_IN_RESPONSE])
  exact ⟨h.2.2.1, by rw [h.2.2.2.1, hlen], h.1⟩

/-- **C9**: downsampling is deterministic across runs: the generator is
rebuilt from the fixed literal seed 42 on each invocation, so for the same
`N > 50000` and cap the selected index subset — and the entire assembled
point cloud — is identical whatever ambient random state each invocation
would otherwise have consumed. -/
theorem downsample_deterministic (e₁ e₂ n : ℕ)
    (hn : MAX_POINTS_IN_RESPONSE < n) :
    downsampleIndices e₁ n = downsampleIndices e₂ n ∧
    ∀ pts cols : List (List ℚ), pts.length = n →
      assemblePointCloud e₁ pts cols = assemblePointCloud e₂ pts cols :=
  ⟨rfl, fun _ _ _ => rfl⟩

/-- Witness for C9 at `n = 50001` and two different ambient states. -/
theorem downsample_deterministic_witness :
    downsampleIndices 0 50001 = downsampleIndices 99 50001 ∧
    ∀ pts cols : List (List ℚ), pts.length = 50001 →
      assemblePointCloud 0 pts cols = assemblePointCloud 99 pts cols :=
  downsample_deterministic 0 99 50001
    (by norm_num [MAX_POINTS_IN_RESPONSE])

theorem map_getD_range {α : Type} (d : α) (l : List α) :
    (List.range l.length).map (fun i => l.getD i d) = l := by
  apply List.ext_getElem (by simp)
  intro i h1 h2
  simp [List.getD_eq_getElem?_getD, List.getElem?_eq_getElem h2]

/-- **C10**: positions and colors in the response are index-aligned: one and
the same index list (the sampled subset when downsampling, the identity
enumeration otherwise) produces both arrays, so entry `j` of `colors` is the
colour of the point at entry `j` of `positions`; in particular both arrays
always have the same length. -/
theorem point_cloud_aligned (entropy : ℕ) (pts cols : List (List ℚ))
    (hc : cols.length = pts.length) :
    ∃ idx : List ℕ,
      (∀ i ∈ idx, i < pts.length) ∧
      (assemblePointCloud entropy pts cols).positions
          = idx.map (fun i => pts.getD i []) ∧
      (assemblePointCloud entropy pts cols).colors
          = idx.map (fun i => cols.getD i []) ∧
      (assemblePointCloud entropy pts cols).positions.length
          = (assemblePointCloud entropy pts cols).colors.length := by
  by_cases h : MAX_POINTS_IN_RESPONSE < pts.length
  · obtain ⟨hlen, hnd, hmem⟩ :=
      rngChoice_spec 42 pts.length MAX_POINTS_IN_RESPONSE (le_of_lt h)
    rw [assemblePointCloud_pos h]
    exact ⟨rngChoice 42 pts.length MAX_POINTS_IN_RESPONSE, hmem, rfl, rfl,
      by simp⟩
  · rw [assemblePointCloud_neg h]
    refine ⟨List.range pts.length, fun i hi => List.mem_range.1 hi, ?_, ?_, hc.symm⟩
    · exact (map_getD_range [] pts).symm
    · rw [← hc]
      exact (map_getD_range [] cols).symm

/-- Witness for C10 at a concrete two-point cloud. -/
theorem point_cloud_aligned_witness :
    ∃ idx : List ℕ,
      (∀ i ∈ idx, i < ([[1], [2]] : List (List ℚ)).length) ∧
      (assemblePointCloud 0 [[1], [2]] [[3], [4]]).positions
          = idx.map (fun i => ([[1], [2]] : List (List ℚ)).getD i []) ∧
      (assemblePointCloud 0 [[1], [2]] [[3], [4]]).colors
          = idx.map (fun i => ([[3], [4]] : List (List ℚ)).getD i []) ∧
      (assemblePointCloud 0 [[1], [2]] [[3], [4]]).positions.length
          = (assemblePointCloud 0 [[1], [2]] [[3], [4]]).colors.length :=
  point_cloud_aligned 0 [[1], [2]] [[3], [4]] (by simp)

end SherlockMirror
